import Mathlib

/-!
# Verification of the call-agent prompt workflow (`app.py`)

Shallow embedding of the meaningful logic of the Streamlit application:

* `seconds_to_hms`     — timestamp rendering (`app.py`, `seconds_to_hms`),
  including an exact model of Python's `str(datetime.timedelta(seconds=...))`;
* `format_transcript`  — speaker-turn segmentation (`app.py`, `format_transcript`);
* the session-state workflow (primary prompt, insights, master prompt,
  refinement history, stored `current_phase`) with its user-triggered
  transitions, as an explicit state machine `Reachable`;
* the per-file batch pipeline of Phase 2 (`processFile` / `processBatch`).

Machine reals (word start times, durations) are modelled as `ℚ`; Python's
`int()` truncation toward zero is modelled by `pyInt`.
-/

/-- Two-digit zero-padded decimal rendering, Python's `"%02d" % n`. -/
def pad2 (n : Nat) : String :=
  if n < 10 then "0" ++ toString n else toString n

/-- Python's `str(datetime.timedelta(seconds=n))` for an integral number of
seconds.  CPython normalises with floor-divmod into days plus a seconds part
in `[0, 86400)`, then prints `"%d:%02d:%02d"` (hours NOT zero-padded),
prefixed with `"%d day(s), "` when the day count is nonzero. -/
def timedeltaStr (n : Int) : String :=
  let days := n.fdiv 86400
  let secs := (n.fmod 86400).toNat
  let hh := secs / 3600
  let mm := secs % 3600 / 60
  let ss := secs % 60
  let base := toString hh ++ ":" ++ pad2 mm ++ ":" ++ pad2 ss
  if days = 0 then base
  else toString days ++ (if days = 1 ∨ days = -1 then " day, " else " days, ") ++ base

/-- Python's `int()` on a real number: truncation toward zero. -/
def pyInt (q : ℚ) : Int := if q < 0 then q.ceil else q.floor

/-- Python's `str.split(sep)` for a one-character separator, over the
character list: split at every occurrence, keeping empty parts. -/
def splitChar (sep : Char) : List Char → List (List Char)
  | [] => [[]]
  | c :: cs =>
    match splitChar sep cs with
    | [] => [[]]
    | g :: gs => if c = sep then [] :: g :: gs else (c :: g) :: gs

/-- Python's `td.split(sep)` on strings (one-character separator). -/
def pySplit (sep : Char) (s : String) : List String :=
  (splitChar sep s.data).map List.asString

/-- `seconds_to_hms` from `app.py`:
```python
def seconds_to_hms(seconds):
    td = str(timedelta(seconds=int(seconds)))
    if len(td.split(':')) == 2:
        td = "00:" + td
    return f"[\x7btd\x7d]"
``` -/
def seconds_to_hms (seconds : ℚ) : String :=
  let td := timedeltaStr (pyInt seconds)
  let td := if (pySplit ':' td).length = 2 then "00:" ++ td else td
  "[" ++ td ++ "]"

/-- A word token as returned by the transcription API: text, start time in
seconds, zero-based speaker id. -/
structure Word where
  word : String
  start : ℚ
  speaker : Nat
deriving DecidableEq

/-- The speaker label string the code builds: `f"Speaker \x7bword['speaker']+1\x7d"`. -/
def speakerLabel (n : Nat) : String := "Speaker " ++ toString (n + 1)

/-- One speaker turn as accumulated by the grouping loop of
`format_transcript`: the label string, the start time of the first word of
the block, and the accumulated word texts. -/
structure SpeakerTurn where
  speakerLabel : String
  start : ℚ
  textWords : List String
deriving DecidableEq

/-- The grouping loop of `format_transcript`, after the first word has opened
a block: `sp`, `st`, `txt` are the loop variables `current_speaker`,
`current_start`, `current_text`.  On a label change the open block is emitted
and a new one is opened; at the end of input the open block is emitted
(Python's trailing `if current_text:` — always true here since a block is
open). -/
def groupWordsAux : List Word → String → ℚ → List String → List SpeakerTurn
  | [], sp, st, txt => [⟨sp, st, txt⟩]
  | w :: ws, sp, st, txt =>
    if speakerLabel w.speaker ≠ sp then
      ⟨sp, st, txt⟩ :: groupWordsAux ws (speakerLabel w.speaker) w.start [w.word]
    else
      groupWordsAux ws sp st (txt ++ [w.word])

/-- The full grouping loop of `format_transcript` over the word list.  Before
the first word `current_speaker` is `None` (no block open, nothing emitted
for empty input); the first word always opens a block. -/
def groupWords : List Word → List SpeakerTurn
  | [] => []
  | w :: ws => groupWordsAux ws (speakerLabel w.speaker) w.start [w.word]

/-- Rendering of one turn:
`f"\x7bseconds_to_hms(current_start)\x7d \x7bcurrent_speaker\x7d: \"\x7b' '.join(current_text)\x7d\""`. -/
def renderTurn (t : SpeakerTurn) : String :=
  seconds_to_hms t.start ++ " " ++ t.speakerLabel ++ ": \"" ++
    String.intercalate " " t.textWords ++ "\""

/-- `format_transcript` from `app.py`.  The argument models the Python value:
`none` is `None` (or a falsy result), `some none` is a dict without a usable
`"results"` entry, and `some (some ws)` is a well-formed result whose nested
`["results"]["channels"][0]["alternatives"][0]["words"]` list is `ws`. -/
def format_transcript (result : Option (Option (List Word))) : String :=
  match result with
  | none => "No transcription available"
  | some none => "No transcription available"
  | some (some words) => String.intercalate "\n" ((groupWords words).map renderTurn)

/-! ## Session state and its user-triggered transitions -/

/-- One entry of `st.session_state.call_insights` (the wall-clock timestamp
field is not modelled). -/
structure InsightRecord where
  filename : String
  insights : String
  transcript : String
deriving DecidableEq

/-- One entry of `st.session_state.transcriptions`. -/
structure TranscriptionRecord where
  filename : String
  transcript : String
deriving DecidableEq

/-- One entry of `st.session_state.refinement_history` (the wall-clock
timestamp field is not modelled). -/
structure RefinementRecord where
  feedback : String
  old_prompt : String
  new_prompt : String
  summary : String
deriving DecidableEq

/-- The modelled part of `st.session_state`.  `None` in Python is `none`. -/
structure AppState where
  primary_prompt : Option String
  master_prompt : Option String
  call_insights : List InsightRecord
  transcriptions : List TranscriptionRecord
  refinement_history : List RefinementRecord
  current_phase : Nat
deriving DecidableEq

/-- The initialisation block: every field absent/empty, phase 1. -/
def initState : AppState :=
  { primary_prompt := none
    master_prompt := none
    call_insights := []
    transcriptions := []
    refinement_history := []
    current_phase := 1 }

/-- Effect of a successful "Generate Primary Prompt" click:
`st.session_state.primary_prompt = primary_prompt; st.session_state.current_phase = 2`. -/
def recordPrimary (s : AppState) (p : String) : AppState :=
  { s with primary_prompt := some p, current_phase := 2 }

/-- Effect of the "Proceed to Phase 3" click: `st.session_state.current_phase = 3`. -/
def proceedPhase3 (s : AppState) : AppState :=
  { s with current_phase := 3 }

/-- Effect of a successful "Generate Master Prompt" click:
`st.session_state.master_prompt = master_prompt; st.session_state.current_phase = 4`. -/
def recordMaster (s : AppState) (m : String) : AppState :=
  { s with master_prompt := some m, current_phase := 4 }

/-- Effect of the "Regenerate Master Prompt" click:
`st.session_state.master_prompt = None` (nothing else changes). -/
def regenerateMaster (s : AppState) : AppState :=
  { s with master_prompt := none }

/-- The summary string stored with a refinement:
`f"Updated prompt based on: \x7buser_feedback[:100]\x7d..."` with the ellipsis
only when the feedback exceeds 100 characters. -/
def mkSummary (feedback : String) : String :=
  "Updated prompt based on: " ++ feedback.take 100 ++
    (if feedback.length > 100 then "..." else "")

/-- Effect of a successful "Refine Prompt" click: append one
`RefinementRecord` whose `old_prompt` is the current master prompt, then
replace the master prompt with the refined text. -/
def applyRefinement (s : AppState) (feedback newText : String) : AppState :=
  { s with
    refinement_history := s.refinement_history ++
      [{ feedback := feedback
         old_prompt := s.master_prompt.getD ""
         new_prompt := newText
         summary := mkSummary feedback }]
    master_prompt := some newText }

/-- Effect of the "Reset All Progress" click: the listed session keys are
deleted and `current_phase` is set to 1; on rerun the initialisation block
recreates every deleted key with its initial value, so the modelled state is
exactly `initState` again. -/
def resetState (_ : AppState) : AppState := initState

/-! ## The Phase-2 batch pipeline -/

/-- The per-file inputs of one batch iteration, with the two external
collaborators' answers for that file made explicit: `transcription` is what
`transcribe_audio` returns (`none` on failure, otherwise the response dict as
in `format_transcript`), `insight` is what `extract_call_insights` returns
(`none` on exception, otherwise the generated text). -/
structure FileInput where
  name : String
  transcription : Option (Option (List Word))
  insight : Option String
deriving DecidableEq

/-- Python truthiness of an optional string (`if insights:`): `None` and the
empty string are falsy. -/
def truthy : Option String → Bool
  | none => false
  | some s => s ≠ ""

/-- One iteration of the Phase-2 loop over `files_to_process`, returning the
new state together with the increments of `successful_analyses` and
`failed_analyses`.  On a truthy transcription result the formatted transcript
is appended to `transcriptions` immediately; only then is insight extraction
attempted, and only its success appends to `call_insights`. -/
def processFile (s : AppState) (f : FileInput) : AppState × Nat × Nat :=
  match f.transcription with
  | none => (s, 0, 1)
  | some tr =>
    let t := format_transcript (some tr)
    let s1 := { s with transcriptions := s.transcriptions ++ [⟨f.name, t⟩] }
    if truthy f.insight then
      ({ s1 with call_insights := s1.call_insights ++ [⟨f.name, f.insight.getD "", t⟩] }, 1, 0)
    else
      (s1, 0, 1)

/-- The whole Phase-2 loop: files processed in the supplied order, counters
summed; no failure aborts the loop. -/
def processBatch (s : AppState) : List FileInput → AppState × Nat × Nat
  | [] => (s, 0, 0)
  | f :: rest =>
    let r1 := processFile s f
    let r2 := processBatch r1.1 rest
    (r2.1, r1.2.1 + r2.2.1, r1.2.2 + r2.2.2)

/-! ## Reachable session states

Each constructor is one user-triggered action together with the UI guards
under which the code lets it run (a button that is not rendered cannot be
clicked).  Truthiness guards (`if primary_prompt:` etc.) make recorded
prompts nonempty strings. -/

inductive Reachable : AppState → Prop
  | init : Reachable initState
  /-- "Generate Primary Prompt": only rendered while no primary prompt
  exists; the result is stored only when truthy. -/
  | primary (s : AppState) (p : String) (hs : Reachable s)
      (hnone : s.primary_prompt = none) (hp : p ≠ "") :
      Reachable (recordPrimary s p)
  /-- "Analyze calls" over any batch of files: rendered only once a primary
  prompt exists. -/
  | batch (s : AppState) (fs : List FileInput) (hs : Reachable s)
      (hp : s.primary_prompt ≠ none) :
      Reachable (processBatch s fs).1
  /-- "Proceed to Phase 3": rendered only with a primary prompt and at least
  one analyzed call. -/
  | proceed (s : AppState) (hs : Reachable s)
      (hp : s.primary_prompt ≠ none) (hi : s.call_insights ≠ []) :
      Reachable (proceedPhase3 s)
  /-- "Generate Master Prompt": rendered only with a primary prompt, at
  least one insight, and no master prompt yet; stored only when truthy. -/
  | master (s : AppState) (m : String) (hs : Reachable s)
      (hp : s.primary_prompt ≠ none) (hi : s.call_insights ≠ [])
      (hm : s.master_prompt = none) (hm' : m ≠ "") :
      Reachable (recordMaster s m)
  /-- "Regenerate Master Prompt": rendered only when a master prompt exists
  (inside the Phase-3 tab, which also requires a primary prompt and
  insights). -/
  | regenerate (s : AppState) (hs : Reachable s)
      (hp : s.primary_prompt ≠ none) (hi : s.call_insights ≠ [])
      (hm : s.master_prompt ≠ none) :
      Reachable (regenerateMaster s)
  /-- "Refine Prompt": rendered only when a master prompt exists; the
  refined text is stored only when truthy. -/
  | refine (s : AppState) (fb nt : String) (hs : Reachable s)
      (hm : s.master_prompt ≠ none) (hnt : nt ≠ "") :
      Reachable (applyRefinement s fb nt)
  /-- "Reset All Progress". -/
  | reset (s : AppState) (hs : Reachable s) : Reachable (resetState s)

/-! ## Injectivity of decimal rendering

The grouping loop compares speaker *label strings*; the claims count runs of
equal speaker *ids*.  The two coincide because `Nat.repr` (hence
`speakerLabel`) is injective, proved here via an explicit most-significant-
digit-first recursion equivalent to core's fuelled `Nat.toDigitsCore`. -/

/-- Decimal digits of `n`, most significant first. -/
def natDigits (n : Nat) : List Char :=
  if _h : n < 10 then [Nat.digitChar n]
  else natDigits (n / 10) ++ [Nat.digitChar (n % 10)]
  termination_by n
  decreasing_by exact Nat.div_lt_self (by omega) (by omega)

theorem toDigitsCore_eq_natDigits :
    ∀ (fuel n : Nat), n < fuel → ∀ ds, Nat.toDigitsCore 10 fuel n ds = natDigits n ++ ds := by
  intro fuel
  induction fuel with
  | zero => intro n hn; omega
  | succ f ih =>
    intro n hn ds
    simp only [Nat.toDigitsCore]
    by_cases h : n / 10 = 0
    · have h10 : n < 10 := by omega
      rw [if_pos h, natDigits, dif_pos h10, Nat.mod_eq_of_lt h10]
      rfl
    · have h10 : ¬ n < 10 := by
        intro hlt; exact h (Nat.div_eq_of_lt hlt)
      have hdiv : n / 10 < f := by
        have : n / 10 < n := Nat.div_lt_self (by omega) (by omega)
        omega
      rw [if_neg h, ih (n / 10) hdiv]
      conv_rhs => rw [natDigits]
      rw [dif_neg h10, List.append_assoc]
      rfl

theorem repr_eq_natDigits (n : Nat) : Nat.repr n = (natDigits n).asString := by
  unfold Nat.repr Nat.toDigits
  rw [toDigitsCore_eq_natDigits (n + 1) n (Nat.lt_succ_self n) [], List.append_nil]

/-- Value of the character `Nat.digitChar d` for a decimal digit `d`. -/
theorem digitChar_val : ∀ d : Nat, d < 10 → (Nat.digitChar d).toNat - 48 = d := by decide

/-- Folding the digit-accumulation step over `natDigits n` recovers `n`. -/
theorem foldl_natDigits (n : Nat) :
    ∀ a : Nat, (natDigits n).foldl (fun b c => b * 10 + (c.toNat - 48)) a =
      a * 10 ^ (natDigits n).length + n := by
  induction n using Nat.strong_induction_on with
  | _ n ih =>
    intro a
    by_cases h : n < 10
    · rw [natDigits, dif_pos h]
      simp [digitChar_val n h]
    · have hdiv : n / 10 < n := Nat.div_lt_self (by omega) (by omega)
      rw [natDigits, dif_neg h, List.foldl_append, ih (n / 10) hdiv a]
      have hmod : n % 10 < 10 := Nat.mod_lt n (by omega)
      simp only [List.foldl_cons, List.foldl_nil, List.length_append, List.length_cons,
        List.length_nil, digitChar_val (n % 10) hmod]
      rw [pow_succ]
      have := Nat.div_add_mod n 10
      ring_nf
      omega

theorem natDigits_injective : Function.Injective natDigits := by
  intro m n h
  have hm := foldl_natDigits m 0
  have hn := foldl_natDigits n 0
  rw [h] at hm
  simp only [Nat.zero_mul, Nat.zero_add] at hm hn
  omega

theorem natRepr_injective : Function.Injective Nat.repr := by
  intro m n h
  rw [repr_eq_natDigits, repr_eq_natDigits] at h
  have : natDigits m = natDigits n := congrArg String.data h
  exact natDigits_injective this

theorem speakerLabel_injective : Function.Injective speakerLabel := by
  intro a b h
  have hdata : ("Speaker " ++ toString (a + 1)).data = ("Speaker " ++ toString (b + 1)).data :=
    congrArg String.data h
  simp only [String.data_append] at hdata
  have : (toString (a + 1)).data = (toString (b + 1)).data :=
    List.append_cancel_left hdata
  have hstr : toString (a + 1) = toString (b + 1) := congrArg String.mk this
  have : a + 1 = b + 1 := natRepr_injective hstr
  omega

/-! ## Maximal same-value runs -/

/-- Number of maximal runs of consecutive equal values. -/
def runCount {α : Type} [DecidableEq α] : List α → Nat
  | [] => 0
  | [_] => 1
  | a :: b :: t => (if a = b then 0 else 1) + runCount (b :: t)

theorem runCount_map_of_injective {α β : Type} [DecidableEq α] [DecidableEq β]
    {f : α → β} (hf : Function.Injective f) :
    ∀ l : List α, runCount (l.map f) = runCount l := by
  intro l
  induction l with
  | nil => rfl
  | cons a t ih =>
    cases t with
    | nil => rfl
    | cons b t' =>
      simp only [List.map_cons, runCount] at ih ⊢
      rw [ih]
      congr 1
      by_cases hab : a = b
      · rw [if_pos hab, if_pos (congrArg f hab)]
      · rw [if_neg hab, if_neg (fun he => hab (hf he))]

/-! ## Structure lemmas for the grouping loop -/

theorem groupWordsAux_length (ws : List Word) :
    ∀ (sp : String) (st : ℚ) (txt : List String),
      (groupWordsAux ws sp st txt).length =
        runCount (sp :: ws.map (fun w => speakerLabel w.speaker)) := by
  induction ws with
  | nil => intro sp st txt; rfl
  | cons w ws ih =>
    intro sp st txt
    simp only [groupWordsAux, List.map_cons, runCount]
    by_cases h : speakerLabel w.speaker = sp
    · rw [if_neg (fun hne => hne h), ih, if_pos h.symm, h]
      omega
    · rw [if_pos (fun he => h he), if_neg (fun he => h he.symm)]
      simp only [List.length_cons, ih]
      omega

theorem groupWordsAux_join (ws : List Word) :
    ∀ (sp : String) (st : ℚ) (txt : List String),
      ((groupWordsAux ws sp st txt).map SpeakerTurn.textWords).flatten =
        txt ++ ws.map Word.word := by
  induction ws with
  | nil => intro sp st txt; simp [groupWordsAux]
  | cons w ws ih =>
    intro sp st txt
    simp only [groupWordsAux, List.map_cons]
    by_cases h : speakerLabel w.speaker = sp
    · rw [if_neg (fun hne => hne h), ih]
      simp
    · rw [if_pos h]
      simp [ih]

theorem groupWordsAux_textWords_ne_nil (ws : List Word) :
    ∀ (sp : String) (st : ℚ) (txt : List String), txt ≠ [] →
      ∀ t ∈ groupWordsAux ws sp st txt, t.textWords ≠ [] := by
  induction ws with
  | nil =>
    intro sp st txt htxt t ht
    simp only [groupWordsAux, List.mem_singleton] at ht
    subst ht; exact htxt
  | cons w ws ih =>
    intro sp st txt htxt t ht
    simp only [groupWordsAux] at ht
    by_cases h : speakerLabel w.speaker = sp
    · rw [if_neg (fun hne => hne h)] at ht
      exact ih sp st (txt ++ [w.word]) (by simp) t ht
    · rw [if_pos (fun he => h he)] at ht
      rcases List.mem_cons.mp ht with h1 | h2
      · subst h1; exact htxt
      · exact ih (speakerLabel w.speaker) w.start [w.word] (by simp) t h2

theorem groupWords_length (ws : List Word) :
    (groupWords ws).length = runCount (ws.map Word.speaker) := by
  cases ws with
  | nil => rfl
  | cons w ws =>
    have h1 : (groupWords (w :: ws)).length =
        runCount ((w :: ws).map (fun w => speakerLabel w.speaker)) :=
      groupWordsAux_length ws (speakerLabel w.speaker) w.start [w.word]
    have h2 : (w :: ws).map (fun w => speakerLabel w.speaker) =
        ((w :: ws).map Word.speaker).map speakerLabel := by
      simp [List.map_map]
    rw [h1, h2, runCount_map_of_injective speakerLabel_injective]

theorem groupWords_join (ws : List Word) :
    ((groupWords ws).map SpeakerTurn.textWords).flatten = ws.map Word.word := by
  cases ws with
  | nil => rfl
  | cons w ws =>
    have := groupWordsAux_join ws (speakerLabel w.speaker) w.start [w.word]
    simpa [groupWords] using this

theorem groupWords_textWords_ne_nil (ws : List Word) :
    ∀ t ∈ groupWords ws, t.textWords ≠ [] := by
  cases ws with
  | nil => intro t ht; simp [groupWords] at ht
  | cons w ws =>
    exact groupWordsAux_textWords_ne_nil ws (speakerLabel w.speaker) w.start
      [w.word] (by simp)

/-! ## Lemmas about the Phase-2 batch pipeline -/

/-- Success of a file in the batch: transcription returns a truthy result and
insight extraction returns a truthy string. -/
def fileSucceeds (f : FileInput) : Prop :=
  f.transcription.isSome = true ∧ truthy f.insight = true

instance (f : FileInput) : Decidable (fileSucceeds f) := by
  unfold fileSucceeds; infer_instance

/-- The insight record a fully successful file contributes. -/
def mkInsight (f : FileInput) : InsightRecord :=
  ⟨f.name, f.insight.getD "", format_transcript f.transcription⟩

/-- The transcription record any file with a truthy transcription contributes. -/
def mkTranscription (f : FileInput) : TranscriptionRecord :=
  ⟨f.name, format_transcript f.transcription⟩

theorem processFile_transFail (s : AppState) (f : FileInput)
    (h : f.transcription = none) : processFile s f = (s, 0, 1) := by
  unfold processFile
  rw [h]

theorem processFile_success (s : AppState) (f : FileInput) (hf : fileSucceeds f) :
    processFile s f =
      ({ s with
          transcriptions := s.transcriptions ++ [mkTranscription f]
          call_insights := s.call_insights ++ [mkInsight f] }, 1, 0) := by
  obtain ⟨h1, h2⟩ := hf
  obtain ⟨tr, htr⟩ := Option.isSome_iff_exists.mp h1
  unfold processFile
  rw [htr]
  simp [h2, mkTranscription, mkInsight, htr]

theorem processFile_insightFail (s : AppState) (f : FileInput)
    (tr : Option (List Word)) (htr : f.transcription = some tr)
    (h : truthy f.insight = false) :
    processFile s f =
      ({ s with transcriptions := s.transcriptions ++ [mkTranscription f] }, 0, 1) := by
  unfold processFile
  rw [htr]
  simp [h, mkTranscription, htr]

theorem processBatch_append (s : AppState) (xs ys : List FileInput) :
    processBatch s (xs ++ ys) =
      ((processBatch (processBatch s xs).1 ys).1,
       (processBatch s xs).2.1 + (processBatch (processBatch s xs).1 ys).2.1,
       (processBatch s xs).2.2 + (processBatch (processBatch s xs).1 ys).2.2) := by
  induction xs generalizing s with
  | nil => simp [processBatch]
  | cons f xs ih =>
    simp only [List.cons_append, processBatch]
    rw [show xs.append ys = xs ++ ys from rfl, ih]
    simp [Nat.add_assoc]


theorem processBatch_allGood (fs : List FileInput) :
    ∀ s : AppState, (∀ f ∈ fs, fileSucceeds f) →
      processBatch s fs =
        ({ s with
            transcriptions := s.transcriptions ++ fs.map mkTranscription
            call_insights := s.call_insights ++ fs.map mkInsight },
         fs.length, 0) := by
  induction fs with
  | nil => intro s _; simp [processBatch]
  | cons f fs ih =>
    intro s hall
    have hf : fileSucceeds f := hall f (List.mem_cons_self f fs)
    have hrest : ∀ g ∈ fs, fileSucceeds g := fun g hg => hall g (List.mem_cons_of_mem f hg)
    simp only [processBatch, processFile_success s f hf, ih _ hrest]
    simp [List.append_assoc]
    omega

theorem processFile_primary (s : AppState) (f : FileInput) :
    (processFile s f).1.primary_prompt = s.primary_prompt := by
  unfold processFile
  cases f.transcription with
  | none => rfl
  | some tr => by_cases h : truthy f.insight <;> simp [h]

theorem processFile_master (s : AppState) (f : FileInput) :
    (processFile s f).1.master_prompt = s.master_prompt := by
  unfold processFile
  cases f.transcription with
  | none => rfl
  | some tr => by_cases h : truthy f.insight <;> simp [h]

theorem processFile_phase (s : AppState) (f : FileInput) :
    (processFile s f).1.current_phase = s.current_phase := by
  unfold processFile
  cases f.transcription with
  | none => rfl
  | some tr => by_cases h : truthy f.insight <;> simp [h]

theorem processFile_history (s : AppState) (f : FileInput) :
    (processFile s f).1.refinement_history = s.refinement_history := by
  unfold processFile
  cases f.transcription with
  | none => rfl
  | some tr => by_cases h : truthy f.insight <;> simp [h]

theorem processFile_insights_extend (s : AppState) (f : FileInput) :
    ∃ l, (processFile s f).1.call_insights = s.call_insights ++ l := by
  unfold processFile
  cases f.transcription with
  | none => exact ⟨[], by simp⟩
  | some tr =>
    by_cases h : truthy f.insight
    · exact ⟨[⟨f.name, f.insight.getD "", format_transcript (some tr)⟩], by simp [h]⟩
    · exact ⟨[], by simp [h]⟩

theorem processBatch_primary (fs : List FileInput) :
    ∀ s : AppState, (processBatch s fs).1.primary_prompt = s.primary_prompt := by
  induction fs with
  | nil => intro s; rfl
  | cons f fs ih =>
    intro s
    simp only [processBatch]
    rw [ih, processFile_primary]

theorem processBatch_master (fs : List FileInput) :
    ∀ s : AppState, (processBatch s fs).1.master_prompt = s.master_prompt := by
  induction fs with
  | nil => intro s; rfl
  | cons f fs ih =>
    intro s
    simp only [processBatch]
    rw [ih, processFile_master]

theorem processBatch_phase (fs : List FileInput) :
    ∀ s : AppState, (processBatch s fs).1.current_phase = s.current_phase := by
  induction fs with
  | nil => intro s; rfl
  | cons f fs ih =>
    intro s
    simp only [processBatch]
    rw [ih, processFile_phase]

theorem processBatch_history (fs : List FileInput) :
    ∀ s : AppState, (processBatch s fs).1.refinement_history = s.refinement_history := by
  induction fs with
  | nil => intro s; rfl
  | cons f fs ih =>
    intro s
    simp only [processBatch]
    rw [ih, processFile_history]

theorem processBatch_insights_extend (fs : List FileInput) :
    ∀ s : AppState, ∃ l, (processBatch s fs).1.call_insights = s.call_insights ++ l := by
  induction fs with
  | nil => intro s; exact ⟨[], by simp [processBatch]⟩
  | cons f fs ih =>
    intro s
    obtain ⟨l1, h1⟩ := processFile_insights_extend s f
    obtain ⟨l2, h2⟩ := ih (processFile s f).1
    exact ⟨l1 ++ l2, by simp only [processBatch]; rw [h2, h1, List.append_assoc]⟩

/-! ## The linear-history chain property -/

/-- Consecutive refinement records link up: each record's `new_prompt` is the
next record's `old_prompt`. -/
def chainOk : List RefinementRecord → Prop
  | [] => True
  | [_] => True
  | a :: b :: t => a.new_prompt = b.old_prompt ∧ chainOk (b :: t)

def chainOkDec : ∀ l : List RefinementRecord, Decidable (chainOk l)
  | [] => isTrue trivial
  | [_] => isTrue trivial
  | _ :: b :: t => @instDecidableAnd _ _ inferInstance (chainOkDec (b :: t))

instance : DecidablePred chainOk := chainOkDec

theorem chainOk_append_single (l : List RefinementRecord) (r : RefinementRecord)
    (hl : chainOk l)
    (hlast : ∀ x, l.getLast? = some x → x.new_prompt = r.old_prompt) :
    chainOk (l ++ [r]) := by
  induction l with
  | nil => exact trivial
  | cons a t ih =>
    cases t with
    | nil => exact ⟨hlast a rfl, trivial⟩
    | cons b t' =>
      obtain ⟨h1, h2⟩ := hl
      refine ⟨h1, ih h2 ?_⟩
      intro x hx
      exact hlast x (by rw [List.getLast?_cons_cons]; exact hx)

/-- Session states reachable without ever using "Regenerate Master Prompt". -/
inductive ReachableNR : AppState → Prop
  | init : ReachableNR initState
  | primary (s : AppState) (p : String) (hs : ReachableNR s)
      (hnone : s.primary_prompt = none) (hp : p ≠ "") :
      ReachableNR (recordPrimary s p)
  | batch (s : AppState) (fs : List FileInput) (hs : ReachableNR s)
      (hp : s.primary_prompt ≠ none) :
      ReachableNR (processBatch s fs).1
  | proceed (s : AppState) (hs : ReachableNR s)
      (hp : s.primary_prompt ≠ none) (hi : s.call_insights ≠ []) :
      ReachableNR (proceedPhase3 s)
  | master (s : AppState) (m : String) (hs : ReachableNR s)
      (hp : s.primary_prompt ≠ none) (hi : s.call_insights ≠ [])
      (hm : s.master_prompt = none) (hm' : m ≠ "") :
      ReachableNR (recordMaster s m)
  | refine (s : AppState) (fb nt : String) (hs : ReachableNR s)
      (hm : s.master_prompt ≠ none) (hnt : nt ≠ "") :
      ReachableNR (applyRefinement s fb nt)
  | reset (s : AppState) (hs : ReachableNR s) : ReachableNR (resetState s)

/-- Invariant carrying the chain property through `ReachableNR`: the chain
holds and, when the history is nonempty, the current master prompt is the
last record's `new_prompt`. -/
def chainInv (s : AppState) : Prop :=
  chainOk s.refinement_history ∧
  ∀ x, s.refinement_history.getLast? = some x → s.master_prompt = some x.new_prompt

theorem chainInv_of_reachableNR : ∀ s : AppState, ReachableNR s → chainInv s := by
  intro s h
  induction h with
  | init => exact ⟨trivial, by intro x hx; simp [initState] at hx⟩
  | primary s p hs hnone hp ih =>
    obtain ⟨h1, h2⟩ := ih
    exact ⟨h1, h2⟩
  | batch s fs hs hp ih =>
    obtain ⟨h1, h2⟩ := ih
    constructor
    · rw [processBatch_history]; exact h1
    · intro x hx
      rw [processBatch_history] at hx
      rw [processBatch_master]
      exact h2 x hx
  | proceed s hs hp hi ih =>
    obtain ⟨h1, h2⟩ := ih
    exact ⟨h1, h2⟩
  | master s m hs hp hi hm hm' ih =>
    obtain ⟨h1, h2⟩ := ih
    constructor
    · exact h1
    · intro x hx
      have := h2 x hx
      rw [hm] at this
      exact absurd this (by simp)
  | refine s fb nt hs hm hnt ih =>
    obtain ⟨h1, h2⟩ := ih
    obtain ⟨m, hm'⟩ := Option.ne_none_iff_exists'.mp hm
    constructor
    · apply chainOk_append_single _ _ h1
      intro x hx
      have := h2 x hx
      rw [hm'] at this
      simp only [applyRefinement, hm', Option.getD_some]
      exact (Option.some_inj.mp this).symm
    · intro x hx
      simp only [applyRefinement, List.getLast?_concat] at hx ⊢
      rw [← Option.some_inj.mp hx]
  | reset s hs ih =>
    exact ⟨trivial, by intro x hx; simp [resetState, initState] at hx⟩

/-! ## The phase invariant actually maintained by the code -/

/-- What is really true of the stored `current_phase` in every reachable
state: it stays within 1..4; it equals 1 exactly while no primary prompt
exists; it reaches 3 or 4 only once at least one insight exists; and a
master prompt can only exist at phase 3 or 4. -/
def phaseInv (s : AppState) : Prop :=
  1 ≤ s.current_phase ∧ s.current_phase ≤ 4 ∧
  (s.current_phase = 1 ↔ s.primary_prompt = none) ∧
  (3 ≤ s.current_phase → s.call_insights ≠ []) ∧
  (s.master_prompt ≠ none → 3 ≤ s.current_phase)

theorem phaseInv_of_reachable : ∀ s : AppState, Reachable s → phaseInv s := by
  intro s h
  induction h with
  | init => refine ⟨by simp [initState], by simp [initState], by simp [initState], ?_, ?_⟩
      <;> simp [initState]
  | primary s p hs hnone hp ih =>
    obtain ⟨i1, i2, i3, i4, i5⟩ := ih
    have hph : s.current_phase = 1 := i3.mpr hnone
    have hm : s.master_prompt = none := by
      by_contra hmm
      have := i5 hmm
      omega
    refine ⟨by simp [recordPrimary], by simp [recordPrimary], ?_, ?_, ?_⟩
    · simp [recordPrimary]
    · intro h3
      simp [recordPrimary] at h3
    · intro hmm
      simp [recordPrimary, hm] at hmm
  | batch s fs hs hp ih =>
    obtain ⟨i1, i2, i3, i4, i5⟩ := ih
    obtain ⟨l, hl⟩ := processBatch_insights_extend fs s
    refine ⟨?_, ?_, ?_, ?_, ?_⟩
    · rw [processBatch_phase]; exact i1
    · rw [processBatch_phase]; exact i2
    · rw [processBatch_phase, processBatch_primary]; exact i3
    · rw [processBatch_phase]
      intro h3
      rw [hl]
      intro habs
      exact i4 h3 (List.append_eq_nil.mp habs).1
    · rw [processBatch_phase, processBatch_master]; exact i5
  | proceed s hs hp hi ih =>
    obtain ⟨i1, i2, i3, i4, i5⟩ := ih
    refine ⟨by simp [proceedPhase3], by simp [proceedPhase3], ?_, ?_, ?_⟩
    · simp only [proceedPhase3]
      constructor
      · intro h31; omega
      · intro hpn; exact absurd hpn hp
    · intro _; exact hi
    · intro _; simp [proceedPhase3]
  | master s m hs hp hi hm hm' ih =>
    refine ⟨by simp [recordMaster], by simp [recordMaster], ?_, ?_, ?_⟩
    · simp only [recordMaster]
      constructor
      · intro h41; omega
      · intro hpn; exact absurd hpn hp
    · intro _; exact hi
    · intro _; simp [recordMaster]
  | regenerate s hs hp hi hm ih =>
    obtain ⟨i1, i2, i3, i4, i5⟩ := ih
    have h3 : 3 ≤ s.current_phase := i5 hm
    refine ⟨by simpa [regenerateMaster] using i1, by simpa [regenerateMaster] using i2, ?_, ?_, ?_⟩
    · simp only [regenerateMaster]
      constructor
      · intro h1; omega
      · intro hpn; exact absurd hpn hp
    · intro _; simpa [regenerateMaster] using hi
    · intro habs; simp [regenerateMaster] at habs
  | refine s fb nt hs hm hnt ih =>
    obtain ⟨i1, i2, i3, i4, i5⟩ := ih
    have h3 : 3 ≤ s.current_phase := i5 hm
    have hpn : s.primary_prompt ≠ none := by
      intro hnone
      have := i3.mpr hnone
      omega
    refine ⟨by simpa [applyRefinement] using i1, by simpa [applyRefinement] using i2, ?_, ?_, ?_⟩
    · simp only [applyRefinement]
      constructor
      · intro h1; omega
      · intro hpn'; exact absurd hpn' hpn
    · intro _
      simp only [applyRefinement]
      exact i4 h3
    · intro _; simpa [applyRefinement] using h3
  | reset s hs ih =>
    refine ⟨by simp [resetState, initState], by simp [resetState, initState],
      by simp [resetState, initState], ?_, ?_⟩ <;> simp [resetState, initState]

/-! ## The formatted transcript never collides with the sentinel -/

theorem intercalate_go_data (s : String) :
    ∀ (xs : List String) (acc : String),
      ∃ r, (String.intercalate.go acc s xs).data = acc.data ++ r := by
  intro xs
  induction xs with
  | nil => intro acc; exact ⟨[], by simp [String.intercalate.go]⟩
  | cons a as ih =>
    intro acc
    obtain ⟨r, hr⟩ := ih (acc ++ s ++ a)
    refine ⟨s.data ++ a.data ++ r, ?_⟩
    rw [show String.intercalate.go acc s (a :: as) = String.intercalate.go (acc ++ s ++ a) s as
      from rfl, hr]
    simp [String.data_append]

theorem intercalate_data_head (s x : String) (xs : List String) :
    ∃ r, (String.intercalate s (x :: xs)).data = x.data ++ r := by
  exact intercalate_go_data s xs x

theorem seconds_to_hms_data (q : ℚ) : ∃ r, (seconds_to_hms q).data = '[' :: r := by
  unfold seconds_to_hms
  refine ⟨(if (pySplit ':' (timedeltaStr (pyInt q))).length = 2
      then "00:" ++ timedeltaStr (pyInt q) else timedeltaStr (pyInt q)).data ++ "]".data, ?_⟩
  simp [String.data_append]

theorem renderTurn_data (t : SpeakerTurn) : ∃ r, (renderTurn t).data = '[' :: r := by
  unfold renderTurn
  obtain ⟨r, hr⟩ := seconds_to_hms_data t.start
  refine ⟨r ++ (" " ++ t.speakerLabel ++ ": \"" ++
    String.intercalate " " t.textWords ++ "\"").data, ?_⟩
  rw [show (seconds_to_hms t.start ++ " " ++ t.speakerLabel ++ ": \"" ++
      String.intercalate " " t.textWords ++ "\"") =
    seconds_to_hms t.start ++ (" " ++ t.speakerLabel ++ ": \"" ++
      String.intercalate " " t.textWords ++ "\"") by simp [String.append_assoc]]
  rw [String.data_append, hr]
  rfl

theorem groupWordsAux_ne_nil (ws : List Word) :
    ∀ (sp : String) (st : ℚ) (txt : List String), groupWordsAux ws sp st txt ≠ [] := by
  induction ws with
  | nil => intro sp st txt; simp [groupWordsAux]
  | cons w ws ih =>
    intro sp st txt
    simp only [groupWordsAux]
    by_cases h : speakerLabel w.speaker = sp
    · rw [if_neg (fun hne => hne h)]
      exact ih sp st (txt ++ [w.word])
    · rw [if_pos h]
      simp

theorem format_transcript_ne_sentinel (ws : List Word) :
    format_transcript (some (some ws)) ≠ "No transcription available" := by
  cases ws with
  | nil => decide
  | cons w ws' =>
    unfold format_transcript
    cases hne : groupWords (w :: ws') with
    | nil => exact absurd hne (groupWordsAux_ne_nil ws' (speakerLabel w.speaker) w.start [w.word])
    | cons t ts =>
      show String.intercalate "\n" ((groupWords (w :: ws')).map renderTurn) ≠
        "No transcription available"
      rw [hne, List.map_cons]
      obtain ⟨r1, hr1⟩ := intercalate_data_head "\n" (renderTurn t) (ts.map renderTurn)
      obtain ⟨r2, hr2⟩ := renderTurn_data t
      intro habs
      have : (String.intercalate "\n" (renderTurn t :: ts.map renderTurn)).data =
          ("No transcription available" : String).data := congrArg String.data habs
      rw [hr1, hr2] at this
      simp at this

/-! ## Concrete states and inputs used by witnesses and counterexamples -/

/-- A batch file whose two collaborator calls both succeed. -/
def exGoodFile : FileInput := ⟨"call1.mp3", some (some [⟨"hi", 0, 0⟩]), some "INSIGHT"⟩

/-- A second fully successful batch file. -/
def exGoodFile2 : FileInput := ⟨"call2.mp3", some (some [⟨"ok", 1, 1⟩]), some "MORE"⟩

/-- A batch file whose transcription call fails (`transcribe_audio` returns
`None`). -/
def exBadFile : FileInput := ⟨"broken.mp3", none, some "unused"⟩

/-- A reachable session state with a primary prompt and one analyzed call. -/
def exPhase2 : AppState := (processBatch (recordPrimary initState "P") [exGoodFile]).1

theorem exPhase2_reachable : Reachable exPhase2 :=
  Reachable.batch _ _ (Reachable.primary _ _ Reachable.init rfl (by decide)) (by decide)

theorem exPhase2_reachableNR : ReachableNR exPhase2 :=
  ReachableNR.batch _ _ (ReachableNR.primary _ _ ReachableNR.init rfl (by decide)) (by decide)

/-- The word sequence of the spec's segmenter example. -/
def exWords : List Word := [⟨"hi", 0, 0⟩, ⟨"there", mkRat 4 10, 0⟩, ⟨"hello", 1, 1⟩]

/-! ## The claims -/

/-- C1: the claim says timestamps render zero-padded `[HH:MM:SS]`, with 3661 s
as `[01:01:01]` and 59.9 s as `[00:00:59]`.  The code (via Python's
`str(timedelta(...))`, whose hour field is `%d`, not `%02d`) actually renders
`[1:01:01]` and `[0:00:59]`: minutes and seconds are zero-padded and the
fractional part is truncated as claimed, but the hour field is not padded.
The function's own docstring says `[HH:MM:SS]`, and its dead `"00:" +` branch
shows the padding intent, so this is a slip in the code. -/
theorem C1_hour_not_zero_padded :
    seconds_to_hms 3661 = "[1:01:01]" ∧
    seconds_to_hms (mkRat 599 10) = "[0:00:59]" ∧
    seconds_to_hms 3661 ≠ "[01:01:01]" ∧
    seconds_to_hms (mkRat 599 10) ≠ "[00:00:59]" := by
  refine ⟨?_, ?_, ?_, ?_⟩ <;> decide

/-- C2 counterexample: a reachable state (primary prompt recorded, one call
analyzed) with at least one insight and no master prompt whose stored
`current_phase` is still 2, not 3 — the claimed phase rule is violated. -/
theorem C2_counterexample :
    Reachable exPhase2 ∧ exPhase2.master_prompt = none ∧
    exPhase2.call_insights ≠ [] ∧ exPhase2.current_phase ≠ 3 :=
  ⟨exPhase2_reachable, by decide, by decide, by decide⟩

/-- C2 (amended): `current_phase` is a stored value, not derived.  In every
reachable state it lies in 1..4, equals 1 exactly while no primary prompt
exists (it becomes 2 when the primary prompt is recorded), reaches 3 or 4
only when at least one insight exists (phase 3 requires an explicit proceed
action — insights alone leave the phase at 2), and whenever a master prompt
exists the phase is 3 or 4 (4 when recorded, but a later proceed action can
return it to 3, and regenerating clears the master prompt while leaving the
phase at 4). -/
theorem C2_phase_invariant : ∀ s : AppState, Reachable s → phaseInv s :=
  phaseInv_of_reachable

theorem C2_witness : phaseInv exPhase2 :=
  C2_phase_invariant exPhase2 exPhase2_reachable

/-- C3: for every non-empty word sequence the number of emitted turns equals
the number of maximal runs of consecutive words sharing the same speaker id,
and concatenating the turns' utterance word lists in order reproduces the
original word texts in order (each turn's utterance being its words joined
by single spaces, and no turn being empty). -/
theorem C3_segmentation_roundtrip : ∀ ws : List Word, ws ≠ [] →
    (groupWords ws).length = runCount (ws.map Word.speaker) ∧
    ((groupWords ws).map SpeakerTurn.textWords).flatten = ws.map Word.word ∧
    ∀ t ∈ groupWords ws, t.textWords ≠ [] :=
  fun ws _ =>
    ⟨groupWords_length ws, groupWords_join ws, groupWords_textWords_ne_nil ws⟩

theorem C3_witness :
    exWords ≠ [] ∧
    ((groupWords exWords).length = runCount (exWords.map Word.speaker) ∧
     ((groupWords exWords).map SpeakerTurn.textWords).flatten = exWords.map Word.word ∧
     ∀ t ∈ groupWords exWords, t.textWords ≠ []) :=
  ⟨by decide, C3_segmentation_roundtrip exWords (by decide)⟩

/-- A reachable state in which the refinement chain is broken: refine to
"M2", regenerate the master prompt, generate a fresh master "M3", refine
again. -/
def exBrokenChain : AppState :=
  applyRefinement
    (recordMaster
      (regenerateMaster (applyRefinement (recordMaster exPhase2 "M1") "f1" "M2"))
      "M3")
    "f2" "M4"

/-- C4 counterexample: a reachable state whose refinement list is NOT a
linear version history: record 0's `new_prompt` is "M2" but record 1's
`old_prompt` (the prompt in effect before it) is "M3", because the master
prompt was regenerated between the two refinements. -/
theorem C4_counterexample :
    Reachable exBrokenChain ∧
    (exBrokenChain.refinement_history.map RefinementRecord.new_prompt)[0]? = some "M2" ∧
    (exBrokenChain.refinement_history.map RefinementRecord.old_prompt)[1]? = some "M3" ∧
    ¬ chainOk exBrokenChain.refinement_history :=
  ⟨Reachable.refine _ "f2" "M4"
      (Reachable.master _ "M3"
        (Reachable.regenerate _
          (Reachable.refine _ "f1" "M2"
            (Reachable.master _ "M1" exPhase2_reachable (by decide) (by decide)
              (by decide) (by decide))
            (by decide) (by decide))
          (by decide) (by decide) (by decide))
        (by decide) (by decide) (by decide) (by decide))
      (by decide) (by decide),
    by decide, by decide, by decide⟩

/-- C4 (amended): applying a refinement appends exactly one
`RefinementRecord` whose `old_prompt` equals the master prompt immediately
before the call and replaces the master prompt with the supplied new text;
and the refinement list is a linear version history (each record's
`new_prompt` equals the next record's `old_prompt`) in every state reachable
without the master-prompt regeneration action — regenerating and
re-generating the master prompt between refinements can break the chain. -/
theorem C4_refinement_append_and_chain :
    (∀ (s : AppState) (fb nt m : String), s.master_prompt = some m →
      (applyRefinement s fb nt).refinement_history =
        s.refinement_history ++ [⟨fb, m, nt, mkSummary fb⟩] ∧
      (applyRefinement s fb nt).master_prompt = some nt) ∧
    (∀ s : AppState, ReachableNR s → chainOk s.refinement_history) := by
  constructor
  · intro s fb nt m hm
    exact ⟨by simp [applyRefinement, hm], rfl⟩
  · intro s hs
    exact (chainInv_of_reachableNR s hs).1

theorem C4_witness :
    ((applyRefinement (recordMaster exPhase2 "M1") "f1" "M2").refinement_history =
        (recordMaster exPhase2 "M1").refinement_history ++
          [⟨"f1", "M1", "M2", mkSummary "f1"⟩] ∧
      (applyRefinement (recordMaster exPhase2 "M1") "f1" "M2").master_prompt = some "M2") ∧
    chainOk (applyRefinement (recordMaster exPhase2 "M1") "f1" "M2").refinement_history :=
  ⟨C4_refinement_append_and_chain.1 (recordMaster exPhase2 "M1") "f1" "M2" "M1" rfl,
   C4_refinement_append_and_chain.2 _
     (ReachableNR.refine _ "f1" "M2"
       (ReachableNR.master _ "M1" exPhase2_reachableNR (by decide) (by decide)
         (by decide) (by decide))
       (by decide) (by decide))⟩

/-- C5: after the reset action every modelled field is back to its initial
empty/absent value — indeed the whole state equals the initial state, which
is the atomicity claim in this sequential model: one transition, all fields
cleared together. -/
theorem C5_reset_clears : ∀ s : AppState,
    resetState s = initState ∧
    (resetState s).primary_prompt = none ∧
    (resetState s).master_prompt = none ∧
    (resetState s).call_insights = [] ∧
    (resetState s).refinement_history = [] :=
  fun _ => ⟨rfl, rfl, rfl, rfl, rfl⟩

theorem C5_witness :
    resetState exBrokenChain = initState ∧
    (resetState exBrokenChain).primary_prompt = none ∧
    (resetState exBrokenChain).master_prompt = none ∧
    (resetState exBrokenChain).call_insights = [] ∧
    (resetState exBrokenChain).refinement_history = [] :=
  C5_reset_clears exBrokenChain

/-- C6: in a batch where transcription fails for exactly one file and every
other step succeeds, the loop continues past the failure, the insight list
grows by exactly one record per surviving file in the supplied order, the
reported success count is N−1 and the reported failure count is 1. -/
theorem C6_batch_skip_and_continue :
    ∀ (s : AppState) (pre post : List FileInput) (bad : FileInput),
      (∀ f ∈ pre ++ post, fileSucceeds f) → bad.transcription = none →
      (processBatch s (pre ++ bad :: post)).1.call_insights =
        s.call_insights ++ (pre ++ post).map mkInsight ∧
      (processBatch s (pre ++ bad :: post)).2.1 = (pre ++ post).length ∧
      (processBatch s (pre ++ bad :: post)).2.2 = 1 := by
  intro s pre post bad hgood hbad
  have hpre : ∀ f ∈ pre, fileSucceeds f := fun f hf => hgood f (List.mem_append_left _ hf)
  have hpost : ∀ f ∈ post, fileSucceeds f := fun f hf => hgood f (List.mem_append_right _ hf)
  rw [processBatch_append]
  rw [processBatch_allGood pre s hpre]
  simp only [processBatch, processFile_transFail _ bad hbad]
  rw [processBatch_allGood post _ hpost]
  refine ⟨?_, ?_, ?_⟩
  · simp [List.append_assoc]
  · simp
  · simp

theorem C6_witness :
    (∀ f ∈ [exGoodFile] ++ [exGoodFile2], fileSucceeds f) ∧
    exBadFile.transcription = none ∧
    ((processBatch initState ([exGoodFile] ++ exBadFile :: [exGoodFile2])).1.call_insights =
        initState.call_insights ++ ([exGoodFile] ++ [exGoodFile2]).map mkInsight ∧
      (processBatch initState ([exGoodFile] ++ exBadFile :: [exGoodFile2])).2.1 =
        ([exGoodFile] ++ [exGoodFile2]).length ∧
      (processBatch initState ([exGoodFile] ++ exBadFile :: [exGoodFile2])).2.2 = 1) :=
  ⟨by decide, by decide,
   C6_batch_skip_and_continue initState [exGoodFile] [exGoodFile2] exBadFile
     (by decide) (by decide)⟩

/-- C7: the code evaluated at the claim's word sequence
`[("hi",0.0,0), ("there",0.4,0), ("hello",1.0,1)]`: it does produce exactly
two turns in order, labelled "Speaker 1" then "Speaker 2", and the first
turn's utterance is "hi there" — but the second turn's rendered timestamp is
`[0:00:01]`, not the claimed `[00:00:01]` (the same unpadded-hour slip as in
C1). -/
theorem C7_example_turns :
    (groupWords exWords).map SpeakerTurn.speakerLabel = ["Speaker 1", "Speaker 2"] ∧
    (groupWords exWords).map (fun t => String.intercalate " " t.textWords) =
      ["hi there", "hello"] ∧
    (groupWords exWords).map (fun t => seconds_to_hms t.start) =
      ["[0:00:00]", "[0:00:01]"] ∧
    format_transcript (some (some exWords)) =
      "[0:00:00] Speaker 1: \"hi there\"\n[0:00:01] Speaker 2: \"hello\"" ∧
    seconds_to_hms 1 ≠ "[00:00:01]" := by
  refine ⟨?_, ?_, ?_, ?_, ?_⟩ <;> decide

/-- C8 counterexample: a well-formed transcription result whose word list is
empty yields the empty string, not the "No transcription available"
sentinel, so "empty transcription input yields the sentinel" fails for the
empty word sequence. -/
theorem C8_counterexample :
    format_transcript (some (some ([] : List Word))) = "" ∧
    format_transcript (some (some ([] : List Word))) ≠ "No transcription available" :=
  ⟨rfl, by decide⟩

/-- C8 (amended): the segmenter is a total function (never an error); an
absent transcription result (`None` or no usable `"results"`) yields the
sentinel "No transcription available" as the downstream prompt text, while a
well-formed result with an empty word list yields the empty string; and a
single-word input produces exactly one turn. -/
theorem C8_empty_and_single_word :
    format_transcript none = "No transcription available" ∧
    format_transcript (some none) = "No transcription available" ∧
    format_transcript (some (some ([] : List Word))) = "" ∧
    ∀ w : Word, groupWords [w] = [⟨speakerLabel w.speaker, w.start, [w.word]⟩] :=
  ⟨rfl, rfl, rfl, fun _ => rfl⟩

/-- C9: as soon as transcription succeeds the transcript record is appended
to the session's transcription list, before insight extraction is attempted;
when insight extraction then fails the transcript stays appended while the
insight list is unchanged and the file is counted as one failure — the
per-file pipeline is not atomic with respect to session state. -/
theorem C9_transcript_persists :
    ∀ (s : AppState) (f : FileInput) (tr : Option (List Word)),
      f.transcription = some tr →
      (processFile s f).1.transcriptions = s.transcriptions ++ [mkTranscription f] ∧
      (truthy f.insight = false →
        processFile s f =
          ({ s with transcriptions := s.transcriptions ++ [mkTranscription f] }, 0, 1)) := by
  intro s f tr htr
  constructor
  · unfold processFile
    rw [htr]
    by_cases h : truthy f.insight <;> simp [h, mkTranscription, htr]
  · intro h
    exact processFile_insightFail s f tr htr h

/-- A file whose transcription succeeds but whose insight extraction fails. -/
def exInsightFailFile : FileInput := ⟨"half.mp3", some (some [⟨"hi", 0, 0⟩]), none⟩

theorem C9_witness :
    exInsightFailFile.transcription = some (some [⟨"hi", 0, 0⟩]) ∧
    truthy exInsightFailFile.insight = false ∧
    ((processFile exPhase2 exInsightFailFile).1.transcriptions =
        exPhase2.transcriptions ++ [mkTranscription exInsightFailFile] ∧
      processFile exPhase2 exInsightFailFile =
        ({ exPhase2 with
            transcriptions := exPhase2.transcriptions ++ [mkTranscription exInsightFailFile] },
          0, 1)) :=
  ⟨rfl, rfl,
   ⟨(C9_transcript_persists exPhase2 exInsightFailFile (some [⟨"hi", 0, 0⟩]) rfl).1,
    (C9_transcript_persists exPhase2 exInsightFailFile (some [⟨"hi", 0, 0⟩]) rfl).2 rfl⟩⟩

/-- C10: the segmenter returns the sentinel "No transcription available"
exactly when the transcription result is absent (`None`/falsy) or lacks a
usable `"results"` entry; a well-formed result with an empty word list
yields the empty string instead, and a well-formed result never yields the
sentinel (every rendered turn line starts with a timestamp bracket). -/
theorem C10_sentinel_iff :
    (∀ r : Option (Option (List Word)),
      format_transcript r = "No transcription available" ↔ (r = none ∨ r = some none)) ∧
    format_transcript (some (some ([] : List Word))) = "" := by
  constructor
  · intro r
    constructor
    · intro h
      match r with
      | none => exact Or.inl rfl
      | some none => exact Or.inr rfl
      | some (some ws) => exact absurd h (format_transcript_ne_sentinel ws)
    · intro h
      rcases h with h | h <;> subst h <;> rfl
  · rfl

theorem C10_witness :
    (format_transcript none = "No transcription available" ↔
      ((none : Option (Option (List Word))) = none ∨
        (none : Option (Option (List Word))) = some none)) ∧
    format_transcript (some (some ([] : List Word))) = "" :=
  ⟨C10_sentinel_iff.1 none, C10_sentinel_iff.2⟩
